import Mathlib

/-!
Shallow embedding of the Workout planner (workout_planner.py, workout_history.py,
equipment.py, main.py) used to check the natural-language specification against
the code.  Python dicts with `{"count": n}` values are modelled as association
lists `List (String × Nat)`; lookups default to 0, mirroring
`d.get(t, {}).get("count", 0)`.
-/

namespace Workout

/-- An equipment map: equipment type → count (a Python dict `{t: {"count": n}}`). -/
abbrev EqMap := List (String × Nat)

/-- `m.get(t, {}).get("count", 0)`: the count stored for key `t`, defaulting to 0. -/
def lookupCount (m : EqMap) (t : String) : Nat :=
  match m.find? (fun p => p.1 = t) with
  | some p => p.2
  | none => 0

/-- Python dict update used for cumulative usage: if the key is present add `c`
to its count, otherwise insert the key with count `c`
(workout_planner.py lines 91-95 and 873-877). -/
def dictAdd (d : EqMap) (t : String) (c : Nat) : EqMap :=
  if (d.find? (fun p => p.1 = t)).isSome then
    d.map (fun p => if p.1 = t then (p.1, p.2 + c) else p)
  else
    d ++ [(t, c)]

/-- Add every entry of `req` into the usage dict `d` (the loop over
`station_requirements.items()` in `can_add_station_to_workout` and `build_plan`). -/
def addRequirements (d : EqMap) (req : EqMap) : EqMap :=
  req.foldl (fun acc p => dictAdd acc p.1 p.2) d

/-- Deduplicate keeping the first occurrence of each element, as Python dict
insertion order does. -/
def dedupKeepFirst {α : Type} [DecidableEq α] : List α → List α
  | [] => []
  | a :: l => a :: (dedupKeepFirst l).filter (fun x => x ≠ a)

/-- The set `all_equipment_types` of `get_station_equipment_requirements`:
every key appearing in any step's equipment map. -/
def allTypes (steps : List EqMap) : List String :=
  ((steps.map (fun m => m.map Prod.fst)).flatten).dedup

/-- The per-step counts collected for one equipment type
(`step_counts` in `get_station_equipment_requirements`). -/
def stepCounts (steps : List EqMap) (t : String) : List Nat :=
  steps.map (fun m => lookupCount m t)

/-- The `required_count` of `get_station_equipment_requirements`: sum of the
per-step counts when `people_per_station > 1` (simultaneous execution),
otherwise their maximum (sequential execution). -/
def requiredCount (steps : List EqMap) (ppl : Nat) (t : String) : Nat :=
  if ppl > 1 then (stepCounts steps t).sum
  else (stepCounts steps t).foldr max 0

/-- workout_planner.py `get_station_equipment_requirements` (lines 21-64):
empty input gives `{}`; otherwise for each equipment type appearing in some
step the required count is computed, and only strictly positive counts are kept. -/
def get_station_equipment_requirements (steps : List EqMap) (ppl : Nat) : EqMap :=
  if steps.isEmpty then []
  else
    (allTypes steps).filterMap (fun t =>
      let rc := requiredCount steps ppl t
      if rc > 0 then some (t, rc) else none)

/-- workout_planner.py `can_add_station_to_workout` (lines 67-105): with no
inventory there is no validation; otherwise simulate adding the station's
requirements to the cumulative usage and check no equipment type exceeds
its available count. -/
def can_add_station_to_workout (steps : List EqMap) (cum inv : EqMap) (ppl : Nat) : Bool :=
  if inv.isEmpty then true
  else
    let req := get_station_equipment_requirements steps ppl
    let testUsage := addRequirements cum req
    testUsage.all (fun p => p.2 ≤ lookupCount inv p.1)

/-- The padding loop of `build_plan` (lines 862-869): while fewer step slots
than `steps_per_station` are filled, replicate the last filled step.  The loop
runs exactly `n - steps.length` times, each iteration appending the current
last element; it never runs for an empty list (in `build_plan` the list is
always non-empty at this point). -/
def padStationSteps (steps : List EqMap) (n : Nat) : List EqMap :=
  padGo (n - steps.length) steps
where
  padGo : Nat → List EqMap → List EqMap
    | 0, s => s
    | k + 1, s => if s.isEmpty then s else padGo k (s ++ [s.getLastD []])

/-- The station-admission loop of `build_plan` (lines 778-916) restricted to
its equipment accounting: each candidate station (a list of step equipment
maps, already expanded for unilateral exercises) is admitted only when
`can_add_station_to_workout` passes against the current cumulative usage; an
admitted station is first padded to `steps_per_station` slots and its
requirements are then added to the cumulative usage (lines 862-877).  A
rejected candidate adds nothing (in the source, `build_plan` aborts the
attempt there). -/
def admitStations (cands : List (List EqMap)) (stepsPer ppl : Nat) (inv : EqMap) : EqMap :=
  cands.foldl
    (fun cum steps =>
      if can_add_station_to_workout steps cum inv ppl then
        addRequirements cum
          (get_station_equipment_requirements (padStationSteps steps stepsPer) ppl)
      else cum)
    []

/-! ### Workout history (workout_history.py) -/

/-- One entry of `workout_sessions` as written by `record_workout_session`. -/
structure WorkoutSession where
  date : String
  title : String
  used_exercise_ids : List Int
  exercise_count : Nat
deriving DecidableEq

/-- The persisted history structure (`history_data` of `WorkoutHistoryManager`).
Usage counts are keyed by the decimal string of the exercise id, as Python's
`str(exercise_id)` does. -/
structure HistoryData where
  workout_sessions : List WorkoutSession
  exercise_usage_count : List (String × Nat)
  last_session_date : Option String
  total_workouts_generated : Nat
deriving DecidableEq

/-- Python's `l[-n:]` slice for `n` the number of trailing elements to keep
(`l[-0:]` is the whole list). -/
def lastSlice {α : Type} (l : List α) (n : Nat) : List α :=
  if n = 0 then l else l.drop (l.length - n)

/-- workout_history.py `get_recently_used_exercise_ids` (lines 91-107): the
ids appearing in the last `n` sessions (a Python set, modelled as a list whose
membership is the set membership). -/
def get_recently_used_exercise_ids (h : HistoryData) (n : Nat) : List Int :=
  ((lastSlice h.workout_sessions n).map (fun s => s.used_exercise_ids)).flatten

/-- workout_history.py `get_exercise_usage_count` (lines 109-119):
`exercise_usage_count.get(str(exercise_id), 0)`. -/
def get_exercise_usage_count (h : HistoryData) (id : Int) : Nat :=
  lookupCount h.exercise_usage_count (toString id)

/-- workout_history.py `calculate_exercise_priority_score` (lines 121-150).
Python floats are modelled as rationals, so `0.1` is `1/10` and so on. -/
def calculate_exercise_priority_score (h : HistoryData) (id : Int) (base : ℚ) : ℚ :=
  if id ∈ get_recently_used_exercise_ids h 2 then base * (1 / 10)
  else if id ∈ get_recently_used_exercise_ids h 5 then base * (1 / 2)
  else if get_exercise_usage_count h id = 0 then base * (3 / 2)
  else if get_exercise_usage_count h id = 1 then base * (6 / 5)
  else base

/-- workout_history.py `record_workout_session` (lines 52-88): append the new
session, bump `total_workouts_generated`, add 1 to the usage count of every
element of `used_exercise_ids` (per occurrence), then truncate the session
list to the last 10 entries when it exceeds 10. -/
def record_workout_session (h : HistoryData) (title : String) (used : List Int)
    (date : String) : HistoryData :=
  let session : WorkoutSession := ⟨date, title, used, used.length⟩
  let sessions1 := h.workout_sessions ++ [session]
  let counts1 := used.foldl (fun c id => dictAdd c (toString id) 1) h.exercise_usage_count
  let sessions2 := if sessions1.length > 10 then lastSlice sessions1 10 else sessions1
  { workout_sessions := sessions2
    exercise_usage_count := counts1
    last_session_date := some date
    total_workouts_generated := h.total_workouts_generated + 1 }

/-! ### Equipment option selection (workout_planner.py lines 165-228) -/

/-- Python's `t.split('_')[0]`: the prefix of `t` before the first underscore
(the whole string when there is none). -/
def baseTypeOf (t : String) : String :=
  String.mk (t.toList.takeWhile (fun c => c ≠ '_'))

/-- The weight families recognised by `select_best_equipment_option`
(line 189). -/
def weightFamilies : List String := ["dumbbells", "kettlebells", "slam_balls"]

/-- The group bases in first-occurrence order (`equipment_groups` dict keys). -/
def familyBases (exEq : EqMap) : List String :=
  dedupKeepFirst ((exEq.map (fun p => baseTypeOf p.1)).filter (fun b => b ∈ weightFamilies))

/-- The alternatives collected for one group base. -/
def groupOptions (exEq : EqMap) (b : String) : EqMap :=
  exEq.filter (fun p => baseTypeOf p.1 = b)

/-- The best-option fold of `select_best_equipment_option` (lines 200-217):
among alternatives whose availability covers the requirement, keep the one of
maximal score `(available - required) + required / max(available, 1)`
(strictly improving on the running best, initially `-1`). -/
def chooseBestOption (options inv : EqMap) : Option (String × Nat) :=
  (options.foldl
    (fun (acc : Option (String × Nat) × ℚ) p =>
      let required := p.2
      let available := lookupCount inv p.1
      if required ≤ available then
        let score : ℚ := ((available : ℚ) - (required : ℚ)) + (required : ℚ) / (max available 1 : ℚ)
        if acc.2 < score then (some p, score) else acc
      else acc)
    (none, -1)).1

/-- workout_planner.py `select_best_equipment_option` (lines 165-228): entries
whose `split('_')[0]` base is not a weight family are kept unchanged; each
weight-family group contributes its best available alternative, or its first
listed alternative when none qualifies. -/
def select_best_equipment_option (exEq inv : EqMap) : EqMap :=
  if exEq.isEmpty || inv.isEmpty then exEq
  else
    let other := exEq.filter (fun p => baseTypeOf p.1 ∉ weightFamilies)
    other ++ (familyBases exEq).map (fun b =>
      match chooseBestOption (groupOptions exEq b) inv with
      | some p => p
      | none => (groupOptions exEq b).headD ("", 0))

/-! ### Exercise name → id map (equipment.py lines 213-236) -/

/-- equipment.py `get_base_exercise_name`: strip a trailing `(Left)` or
`(Right)` (any letter case), together with any whitespace just before it,
mirroring the regex `\s*\((Left|Right)\)$` with IGNORECASE. -/
def get_base_exercise_name (name : String) : String :=
  let cs := name.toList
  let low := cs.map Char.toLower
  if "(left)".toList.isSuffixOf low then
    String.mk (((cs.take (cs.length - 6)).reverse.dropWhile Char.isWhitespace).reverse)
  else if "(right)".toList.isSuffixOf low then
    String.mk (((cs.take (cs.length - 7)).reverse.dropWhile Char.isWhitespace).reverse)
  else name

/-- A catalog entry as iterated by `build_exercise_name_to_id_map`: either a
structured record (`isinstance(ex, dict)`) with name, id and skip flag, or a
legacy plain string. -/
inductive CatEntry where
  | obj (name : String) (id : Int) (skip : Bool)
  | legacy (name : String)
deriving DecidableEq

/-- The state built by `build_exercise_name_to_id_map`: the `name_to_id` dict
plus the reported duplicate-id errors `(base, stored id, new id)`. -/
structure NameIdMap where
  map : List (String × Int)
  errors : List (String × Int × Int)
deriving DecidableEq

/-- Lookup in the `name_to_id` dict. -/
def mapLookup (m : List (String × Int)) (b : String) : Option Int :=
  (m.find? (fun p => p.1 = b)).map (fun p => p.2)

/-- Python dict assignment `name_to_id[b] = i`: replace the stored value when
the key is present, otherwise append the pair. -/
def mapInsert (m : List (String × Int)) (b : String) (i : Int) : List (String × Int) :=
  if (m.find? (fun p => p.1 = b)).isSome then
    m.map (fun p => if p.1 = b then (p.1, i) else p)
  else m ++ [(b, i)]

/-- One iteration of the loop in `build_exercise_name_to_id_map`
(equipment.py lines 222-235): skipped records are ignored; a structured record
whose base name is already mapped to a different id is reported as an error,
and in every case the assignment `name_to_id[name] = ex_id` is performed;
legacy strings are mapped to `-1` without any conflict check. -/
def recordEntry (st : NameIdMap) (e : CatEntry) : NameIdMap :=
  match e with
  | .obj n i skip =>
    if skip then st
    else
      let b := get_base_exercise_name n
      let errs :=
        match mapLookup st.map b with
        | some old => if old ≠ i then st.errors ++ [(b, old, i)] else st.errors
        | none => st.errors
      ⟨mapInsert st.map b i, errs⟩
  | .legacy n => ⟨mapInsert st.map (get_base_exercise_name n) (-1), st.errors⟩

/-- equipment.py `build_exercise_name_to_id_map` (lines 218-236) on a
flattened list of catalog entries. -/
def build_exercise_name_to_id_map (entries : List CatEntry) : NameIdMap :=
  entries.foldl recordEntry ⟨[], []⟩

/-! ### Capacity check of build_plan (workout_planner.py lines 677-694) -/

/-- `people_per_station = min(2, people // stations) if stations > 0 else 1`
(line 683). -/
def compute_people_per_station (people stations : Nat) : Nat :=
  if stations > 0 then min 2 (people / stations) else 1

/-- The entry check of `build_plan` (lines 677-694): when
`people > stations * 2` the run dies before any station is constructed,
otherwise the effective `people_per_station` is returned and station
construction proceeds with it. -/
def build_plan_capacity_gate (people stations : Nat) : Except String Nat :=
  let pps := compute_people_per_station people stations
  let maxAccommodated := stations * 2
  if people > maxAccommodated then
    Except.error "Cannot accommodate people with these stations"
  else Except.ok pps

/-! ### Edit engine (main.py lines 404-660) -/

/-- One pool tuple
`(area, equip_name, exercise_name, exercise_link, equipment_data, muscles, unilateral, exercise_id, video_type)`
as produced by `build_station_pool`. -/
structure PoolEx where
  area : String
  equipName : String
  name : String
  link : String
  equipment : EqMap
  muscles : String
  unilateral : Bool
  id : Int
  videoType : String
deriving DecidableEq

/-- Placeholder returned by out-of-range `getD` accesses; never selected by
the source, which always indexes within bounds. -/
def defaultPoolEx : PoolEx := ⟨"", "", "", "", [], "", false, -1, ""⟩

/-- main.py `get_exercise_by_id` (lines 292-296): first pool tuple whose id
matches, if any. -/
def get_exercise_by_id (exId : Int) (pool : List PoolEx) : Option PoolEx :=
  pool.find? (fun ex => ex.id = exId)

/-- The keys of `pool_by_id = {ex[-2]: ex for ex in pool if ex[-2] != -1}` in
Python dict order: first occurrence of each id with `id != -1`. -/
def poolByIdKeys (pool : List PoolEx) : List Int :=
  dedupKeepFirst ((pool.filter (fun ex => ex.id ≠ -1)).map (fun ex => ex.id))

/-- The value stored for id `i` in `pool_by_id`: the last pool tuple with that
id (later dict-comprehension assignments overwrite earlier ones). -/
def lastWithId (pool : List PoolEx) (i : Int) : Option PoolEx :=
  (pool.filter (fun ex => ex.id ≠ -1)).reverse.find? (fun ex => ex.id = i)

/-- The values of `pool_by_id` in iteration order (main.py line 463). -/
def pool_by_id (pool : List PoolEx) : List PoolEx :=
  (poolByIdKeys pool).filterMap (lastWithId pool)

/-- `id_to_name = {ex[-2]: ex[2] for ex in pool if ex[-2] != -1}`
(main.py line 438). -/
def idToName (pool : List PoolEx) (i : Int) : Option String :=
  (lastWithId pool i).map (fun ex => ex.name)

/-- The unilateral expansion of the edit set (main.py lines 440-457): together
with the given ids, every id occurring in some station whose exercise's base
name matches the base name of some edit id.  Membership in this list is the
membership of the Python set `expanded_edit_ids`. -/
def expand_edit_ids (editIds : List Int) (stationsIds : List (List Int))
    (pool : List PoolEx) : List Int :=
  editIds ++ stationsIds.flatMap (fun stIds =>
    editIds.flatMap (fun eid =>
      match idToName pool eid with
      | none => []
      | some n => stIds.filter (fun e2 =>
          match idToName pool e2 with
          | some n2 => get_base_exercise_name n2 = get_base_exercise_name n
          | none => false)))

/-- The candidate constraints shared by every replacement branch (main.py
lines 537-540, 558-561, 592-595, 619-621): id not already used, id not itself
being replaced, name not already used, and area matching when one is required. -/
def candOK (alreadyUsed toReplace : List Int) (usedNames : List String)
    (area : Option String) (ex : PoolEx) : Bool :=
  (ex.id ∉ alreadyUsed) && (ex.id ∉ toReplace) && (ex.name ∉ usedNames) &&
    (match area with
     | none => true
     | some a => ex.area = a)

/-- `unilateral_candidates` of main.py lines 537-540. -/
def unilateralCandidates (pool : List PoolEx) (alreadyUsed toReplace : List Int)
    (usedNames : List String) (area : Option String) : List PoolEx :=
  (pool_by_id pool).filter (fun ex =>
    candOK alreadyUsed toReplace usedNames area ex && ex.unilateral)

/-- `bilateral_candidates` of main.py lines 558-561 and 592-595. -/
def bilateralCandidates (pool : List PoolEx) (alreadyUsed toReplace : List Int)
    (usedNames : List String) (area : Option String) : List PoolEx :=
  (pool_by_id pool).filter (fun ex =>
    candOK alreadyUsed toReplace usedNames area ex && !ex.unilateral)

/-- `candidates` of the fallback branch, main.py lines 619-621. -/
def fallbackCandidates (pool : List PoolEx) (alreadyUsed toReplace : List Int)
    (usedNames : List String) (area : Option String) : List PoolEx :=
  (pool_by_id pool).filter (candOK alreadyUsed toReplace usedNames area)

/-- The intended area taken from `balance_order` (main.py lines 518-525):
direct index when the station index is within range, otherwise cycling. -/
def intendedAreaOf (balanceOrder : List String) (stationIdx : Nat) : String :=
  if stationIdx < balanceOrder.length then balanceOrder.getD stationIdx ""
  else balanceOrder.getD (stationIdx % balanceOrder.length) ""

/-- `random.choice(l)` with the randomness supplied by an oracle value. -/
def pickFrom (l : List PoolEx) (p : Nat) : PoolEx :=
  l.getD (p % l.length) defaultPoolEx

/-- `random.sample(l, 2)` as a pair of distinct indices into a list of length
`n ≥ 2`, driven by two oracle values. -/
def samplePair (n p1 p2 : Nat) : Nat × Nat :=
  let i := p1 % n
  let j0 := p2 % (n - 1)
  (i, if j0 < i then j0 else j0 + 1)

/-- The mutable state of the replacement loop: the stations'
`used_exercise_ids`, the `already_used` id set and the `all_used_names` set. -/
structure EditState where
  stations : List (List Int)
  alreadyUsed : List Int
  allUsedNames : List String
deriving DecidableEq

/-- Read `stations[s][k]` when in range. -/
def getPos? (sts : List (List Int)) (p : Nat × Nat) : Option Int :=
  (sts.get? p.1).bind (fun row => row.get? p.2)

/-- `current_stations[sidx]['used_exercise_ids'][step_idx] = new_id`. -/
def setPos (sts : List (List Int)) (p : Nat × Nat) (v : Int) : List (List Int) :=
  sts.set p.1 ((sts.getD p.1 []).set p.2 v)

/-- One iteration of the replacement loop of main.py (lines 503-637) for the
group of positions holding `oldId`.  `picks` is the randomness oracle; group
`gi` consumes `picks (2*gi)` and `picks (2*gi+1)`.  `Except.error ()` models
the fatal `sys.exit(1)` calls. -/
def processGroup (pool : List PoolEx) (toReplace : List Int)
    (balanceOrder : List String) (picks : Nat → Nat) (gi : Nat)
    (st : EditState) (oldId : Int) (positions : List (Nat × Nat)) :
    Except Unit EditState :=
  let origUnilateral :=
    match get_exercise_by_id oldId pool with
    | none => false
    | some ex => ex.unilateral
  let stationIdx := (positions.headD (0, 0)).1
  let intendedArea := intendedAreaOf balanceOrder stationIdx
  let originalArea : Option String := some intendedArea
  if origUnilateral = true ∧ positions.length = 2 then
    let uc := unilateralCandidates pool st.alreadyUsed toReplace st.allUsedNames originalArea
    if uc.isEmpty then
      let bc := bilateralCandidates pool st.alreadyUsed toReplace st.allUsedNames originalArea
      if bc.length < 2 then Except.error ()
      else
        let ij := samplePair bc.length (picks (2 * gi)) (picks (2 * gi + 1))
        let e1 := bc.getD ij.1 defaultPoolEx
        let e2 := bc.getD ij.2 defaultPoolEx
        Except.ok
          { stations := ((positions.zip [e1, e2]).foldl
              (fun s pe => setPos s pe.1 pe.2.id) st.stations)
            alreadyUsed := st.alreadyUsed ++ [e1.id, e2.id]
            allUsedNames := st.allUsedNames ++ [e1.name, e2.name] }
    else
      let newEx := pickFrom uc (picks (2 * gi))
      Except.ok
        { stations := positions.foldl (fun s p => setPos s p newEx.id) st.stations
          alreadyUsed := st.alreadyUsed ++ [newEx.id]
          allUsedNames := st.allUsedNames ++ [newEx.name] }
  else if origUnilateral = false ∧ positions.length = 1 then
    let bc := bilateralCandidates pool st.alreadyUsed toReplace st.allUsedNames originalArea
    if bc.isEmpty then Except.error ()
    else
      let newEx := pickFrom bc (picks (2 * gi))
      Except.ok
        { stations := setPos st.stations (positions.headD (0, 0)) newEx.id
          alreadyUsed := st.alreadyUsed ++ [newEx.id]
          allUsedNames := st.allUsedNames ++ [newEx.name] }
  else
    let cand := fallbackCandidates pool st.alreadyUsed toReplace st.allUsedNames originalArea
    if cand.isEmpty then Except.error ()
    else
      let newEx := pickFrom cand (picks (2 * gi))
      Except.ok
        { stations := positions.foldl (fun s p => setPos s p newEx.id) st.stations
          alreadyUsed := st.alreadyUsed ++ [newEx.id]
          allUsedNames := st.allUsedNames ++ [newEx.name] }

/-- The `(station index, step index, id)` triples of one station row,
starting at step index `k`. -/
def rowTriples (s : Nat) : Nat → List Int → List (Nat × Nat × Int)
  | _, [] => []
  | k, e :: es => (s, k, e) :: rowTriples s (k + 1) es

/-- All `(station index, step index, id)` triples of the stations, row-major,
starting at station index `s`. -/
def positionTriples : Nat → List (List Int) → List (Nat × Nat × Int)
  | _, [] => []
  | s, row :: rest => rowTriples s 0 row ++ positionTriples (s + 1) rest

/-- `locations_by_id` (main.py lines 464-471): the positions of every id of
`ids_to_replace`, grouped per id in first-occurrence (dict insertion) order. -/
def locationsById (stationsIds : List (List Int)) (toReplace : List Int) :
    List (Int × List (Nat × Nat)) :=
  let hits := (positionTriples 0 stationsIds).filter (fun p => p.2.2 ∈ toReplace)
  (dedupKeepFirst (hits.map (fun p => p.2.2))).map (fun eid =>
    (eid, (hits.filter (fun p => p.2.2 = eid)).map (fun p => (p.1, p.2.1))))

/-- The replacement loop over the groups of `locations_by_id`
(main.py lines 503-637). -/
def runGroups (pool : List PoolEx) (toReplace : List Int)
    (balanceOrder : List String) (picks : Nat → Nat) :
    Nat → List (Int × List (Nat × Nat)) → EditState → Except Unit EditState
  | _, [], st => Except.ok st
  | gi, g :: rest, st =>
    match processGroup pool toReplace balanceOrder picks gi st g.1 g.2 with
    | Except.error e => Except.error e
    | Except.ok st2 => runGroups pool toReplace balanceOrder picks (gi + 1) rest st2

/-- `keep_ids` (main.py lines 478-482): every id of the last plan that is not
being replaced; `already_used` starts as a copy of it. -/
def keepIds (stationsIds : List (List Int)) (toReplace : List Int) : List Int :=
  stationsIds.flatten.filter (fun e => e ∉ toReplace)

/-- The whole replacement pass of an edit run (main.py lines 429-637),
returning the mutated stations' `used_exercise_ids`.  `initialUsedNames`
stands for the step names of the stations rebuilt by
`reconstruct_stations_from_ids` (line 487-499); its content does not matter
for the properties proved here. -/
def run_edit_replacements (stationsIds : List (List Int)) (toReplace : List Int)
    (pool : List PoolEx) (balanceOrder : List String)
    (initialUsedNames : List String) (picks : Nat → Nat) :
    Except Unit (List (List Int)) :=
  let st0 : EditState := ⟨stationsIds, keepIds stationsIds toReplace, initialUsedNames⟩
  (runGroups pool toReplace balanceOrder picks 0
      (locationsById stationsIds toReplace) st0).map (fun st => st.stations)

/-- The persisted last-plan artifact, restricted to the fields the edit run
touches: its stored seed and its stations' `used_exercise_ids`. -/
structure LastPlanData where
  seed : Int
  stations : List (List Int)
deriving DecidableEq

/-- main.py line 650: `last_plan_data['stations'] = current_stations` — only
the stations field is rewritten before the artifact is saved. -/
def persist_edited_stations (lp : LastPlanData) (sts : List (List Int)) : LastPlanData :=
  { lp with stations := sts }

/-! ### Dictionary lemmas -/

/-- The per-key contribution of a requirement list when its entries are added
one by one into a usage dict. -/
def sumForKey (req : EqMap) (u : String) : Nat :=
  (req.map (fun p => if p.1 = u then p.2 else 0)).sum

/-- The effective assignment of one catalog entry: skipped records assign
nothing; structured records assign their id, legacy strings assign -1 (both
under the stripped base name). -/
def effAssign : CatEntry → Option (String × Int)
  | .obj n i skip => if skip then none else some (get_base_exercise_name n, i)
  | .legacy n => some (get_base_exercise_name n, -1)

/-- The id assigned to base name `b` by the last entry of `entries` that
effectively assigns to `b`, starting from a previous binding `acc`. -/
def lastAssignedId (entries : List CatEntry) (b : String) (acc : Option Int) : Option Int :=
  entries.foldl
    (fun acc e =>
      match effAssign e with
      | some q => if q.1 = b then some q.2 else acc
      | none => acc) acc

theorem lookupCount_cons (p : String × Nat) (m : EqMap) (u : String) :
    lookupCount (p :: m) u = if p.1 = u then p.2 else lookupCount m u := by
  unfold lookupCount
  by_cases h : p.1 = u
  · rw [List.find?_cons_of_pos _ (by simp [h])]
    simp [h]
  · rw [List.find?_cons_of_neg _ (by simp [h])]
    simp [h]

theorem lookupCount_eq_zero_of_not_mem {m : EqMap} {t : String}
    (h : t ∉ m.map Prod.fst) : lookupCount m t = 0 := by
  unfold lookupCount
  have hf : m.find? (fun p => p.1 = t) = none := by
    rw [List.find?_eq_none]
    intro p hp
    simp only [decide_eq_true_eq]
    intro he
    exact h (he ▸ List.mem_map_of_mem Prod.fst hp)
  rw [hf]

theorem find?_isSome_iff_mem_keys (d : EqMap) (t : String) :
    (d.find? (fun p => p.1 = t)).isSome ↔ t ∈ d.map Prod.fst := by
  rw [List.find?_isSome]
  constructor
  · rintro ⟨p, hp, hpt⟩
    simp only [decide_eq_true_eq] at hpt
    exact hpt ▸ List.mem_map_of_mem Prod.fst hp
  · intro hmem
    rcases List.mem_map.mp hmem with ⟨p, hp, he⟩
    exact ⟨p, hp, by simp [he]⟩

theorem exists_entry_of_lookupCount_ne_zero {m : EqMap} {t : String}
    (h : lookupCount m t ≠ 0) : ∃ p ∈ m, p.1 = t ∧ p.2 = lookupCount m t := by
  unfold lookupCount at h ⊢
  cases hf : m.find? (fun p => p.1 = t) with
  | none => rw [hf] at h; simp at h
  | some p =>
    refine ⟨p, List.mem_of_find?_eq_some hf, ?_, rfl⟩
    simpa using List.find?_some hf

theorem lookupCount_dictAdd (d : EqMap) (t : String) (c : Nat) (u : String) :
    lookupCount (dictAdd d t c) u = lookupCount d u + (if u = t then c else 0) := by
  unfold dictAdd
  by_cases hs : (d.find? (fun p => p.1 = t)).isSome
  · rw [if_pos hs]
    unfold lookupCount
    rw [List.find?_map]
    have hpred : ((fun p : String × Nat => decide (p.1 = u)) ∘
        (fun p => if p.1 = t then (p.1, p.2 + c) else p)) =
        (fun p : String × Nat => decide (p.1 = u)) := by
      funext p
      by_cases hp : p.1 = t <;> simp [hp]
    rw [hpred]
    cases hf : d.find? (fun p : String × Nat => decide (p.1 = u)) with
    | none =>
      by_cases hu : u = t
      · subst hu; rw [hf] at hs; simp at hs
      · simp [hu]
    | some p =>
      have hp1 : p.1 = u := by simpa using List.find?_some hf
      by_cases hu : u = t
      · simp [hp1, hu]
      · simp [hp1, hu]
  · rw [if_neg hs]
    unfold lookupCount
    rw [List.find?_append]
    cases hf : d.find? (fun p : String × Nat => decide (p.1 = u)) with
    | none =>
      by_cases hu : u = t
      · subst hu
        simp [List.find?, hf]
      · have htu : ¬(t = u) := fun he => hu he.symm
        simp [List.find?, hf, htu, hu]
    | some p =>
      have hu : u ≠ t := by
        intro he
        subst he
        exact hs (hf ▸ rfl)
      simp [hf, hu]

theorem lookupCount_addRequirements (req : EqMap) (d : EqMap) (u : String) :
    lookupCount (addRequirements d req) u = lookupCount d u + sumForKey req u := by
  induction req generalizing d with
  | nil => simp [addRequirements, sumForKey]
  | cons p rest ih =>
    have hstep : addRequirements d (p :: rest) = addRequirements (dictAdd d p.1 p.2) rest := by
      simp [addRequirements]
    rw [hstep, ih, lookupCount_dictAdd]
    simp only [sumForKey, List.map_cons, List.sum_cons]
    by_cases h : p.1 = u
    · simp [h, eq_comm]
      omega
    · have h2 : ¬u = p.1 := fun he => h he.symm
      simp [h, h2]

theorem keys_map_update (d : EqMap) (t : String) (c : Nat) :
    (d.map (fun p => if p.1 = t then (p.1, p.2 + c) else p)).map Prod.fst = d.map Prod.fst := by
  rw [List.map_map]
  congr 1
  funext p
  by_cases h : p.1 = t <;> simp [h]

theorem keys_dictAdd_nodup {d : EqMap} (t : String) (c : Nat)
    (h : (d.map Prod.fst).Nodup) : ((dictAdd d t c).map Prod.fst).Nodup := by
  unfold dictAdd
  by_cases hs : (d.find? (fun p => p.1 = t)).isSome
  · rw [if_pos hs, keys_map_update]
    exact h
  · rw [if_neg hs]
    have ht : t ∉ d.map Prod.fst := fun hm => hs ((find?_isSome_iff_mem_keys d t).mpr hm)
    rw [List.map_append]
    simp [List.nodup_append, h, ht]

theorem keys_addRequirements_nodup {d : EqMap} (req : EqMap)
    (h : (d.map Prod.fst).Nodup) : ((addRequirements d req).map Prod.fst).Nodup := by
  induction req generalizing d with
  | nil => exact h
  | cons p rest ih =>
    have hstep : addRequirements d (p :: rest) = addRequirements (dictAdd d p.1 p.2) rest := by
      simp [addRequirements]
    rw [hstep]
    exact ih (keys_dictAdd_nodup p.1 p.2 h)

theorem lookupCount_of_mem_nodup {d : EqMap} {p : String × Nat}
    (hnd : (d.map Prod.fst).Nodup) (hp : p ∈ d) : lookupCount d p.1 = p.2 := by
  induction d with
  | nil => cases hp
  | cons q rest ih =>
    rw [lookupCount_cons]
    rcases List.mem_cons.mp hp with he | hm
    · subst he; simp
    · simp only [List.map_cons, List.nodup_cons] at hnd
      have hq : ¬q.1 = p.1 := by
        intro he
        exact hnd.1 (he ▸ List.mem_map_of_mem Prod.fst hm)
      rw [if_neg hq]
      exact ih hnd.2 hm

theorem sumForKey_eq_zero_of_not_mem {req : EqMap} {u : String}
    (h : u ∉ req.map Prod.fst) : sumForKey req u = 0 := by
  induction req with
  | nil => simp [sumForKey]
  | cons p rest ih =>
    simp only [List.map_cons, List.mem_cons, not_or] at h
    simp only [sumForKey, List.map_cons, List.sum_cons]
    have hp : ¬p.1 = u := fun he => h.1 he.symm
    rw [if_neg hp]
    have hz := ih h.2
    simp only [sumForKey] at hz
    omega

theorem sumForKey_eq_lookupCount_of_nodup {req : EqMap} (u : String)
    (h : (req.map Prod.fst).Nodup) : sumForKey req u = lookupCount req u := by
  induction req with
  | nil => simp [sumForKey, lookupCount]
  | cons p rest ih =>
    simp only [List.map_cons, List.nodup_cons] at h
    simp only [sumForKey, List.map_cons, List.sum_cons]
    rw [lookupCount_cons]
    by_cases hp : p.1 = u
    · rw [if_pos hp, if_pos hp]
      have : u ∉ rest.map Prod.fst := hp ▸ h.1
      have hz := sumForKey_eq_zero_of_not_mem this
      simp only [sumForKey] at hz
      omega
    · rw [if_neg hp, if_neg hp]
      simpa [sumForKey] using ih h.2

/-! ### Lemmas about station requirements -/

theorem foldr_max_eq_zero {l : List Nat} (h : ∀ x ∈ l, x = 0) : l.foldr max 0 = 0 := by
  induction l with
  | nil => rfl
  | cons a rest ih =>
    simp only [List.foldr_cons]
    rw [h a (by simp), ih (fun x hx => h x (by simp [hx]))]
    simp

theorem le_foldr_max {l : List Nat} {a : Nat} (h : a ∈ l) : a ≤ l.foldr max 0 := by
  induction l with
  | nil => cases h
  | cons b rest ih =>
    simp only [List.foldr_cons]
    rcases List.mem_cons.mp h with he | hm
    · exact he ▸ le_max_left _ _
    · exact le_trans (ih hm) (le_max_right _ _)

theorem foldr_max_le {l : List Nat} {b : Nat} (h : ∀ x ∈ l, x ≤ b) : l.foldr max 0 ≤ b := by
  induction l with
  | nil => exact Nat.zero_le b
  | cons a rest ih =>
    simp only [List.foldr_cons]
    exact max_le (h a (by simp)) (ih (fun x hx => h x (by simp [hx])))

theorem foldr_max_init (l : List Nat) (b : Nat) :
    l.foldr max b = max (l.foldr max 0) b := by
  induction l with
  | nil => simp
  | cons a rest ih =>
    simp only [List.foldr_cons]
    rw [ih, max_assoc]

theorem foldr_max_append (l₁ l₂ : List Nat) :
    (l₁ ++ l₂).foldr max 0 = max (l₁.foldr max 0) (l₂.foldr max 0) := by
  rw [List.foldr_append, foldr_max_init]

theorem mem_allTypes {steps : List EqMap} {t : String} :
    t ∈ allTypes steps ↔ ∃ m ∈ steps, t ∈ m.map Prod.fst := by
  simp [allTypes, List.mem_dedup, List.mem_flatten]

theorem requiredCount_eq_zero_of_not_mem {steps : List EqMap} (ppl : Nat) {t : String}
    (h : t ∉ allTypes steps) : requiredCount steps ppl t = 0 := by
  have hall : ∀ m ∈ steps, lookupCount m t = 0 := by
    intro m hm
    apply lookupCount_eq_zero_of_not_mem
    intro hk
    exact h (mem_allTypes.mpr ⟨m, hm, hk⟩)
  unfold requiredCount stepCounts
  by_cases hp : ppl > 1
  · rw [if_pos hp]
    apply List.sum_eq_zero
    intro x hx
    rcases List.mem_map.mp hx with ⟨m, hm, he⟩
    exact he ▸ hall m hm
  · rw [if_neg hp]
    apply foldr_max_eq_zero
    intro x hx
    rcases List.mem_map.mp hx with ⟨m, hm, he⟩
    exact he ▸ hall m hm

theorem mem_gser_iff {steps : List EqMap} {ppl : Nat} (h : steps ≠ []) {t : String} {v : Nat} :
    (t, v) ∈ get_station_equipment_requirements steps ppl ↔
      (v = requiredCount steps ppl t ∧ v ≠ 0) := by
  unfold get_station_equipment_requirements
  rw [if_neg (by simpa [List.isEmpty_iff] using h)]
  rw [List.mem_filterMap]
  constructor
  · rintro ⟨u, hu, he⟩
    simp only at he
    by_cases hrc : requiredCount steps ppl u > 0
    · rw [if_pos hrc] at he
      obtain ⟨he1, he2⟩ := Prod.mk.injEq .. ▸ Option.some.injEq .. ▸ he
      constructor
      · rw [← he1, ← he2]
      · omega
    · rw [if_neg hrc] at he
      cases he
  · rintro ⟨hv, hnz⟩
    have hrc : requiredCount steps ppl t > 0 := by omega
    have ht : t ∈ allTypes steps := by
      by_contra hna
      have := requiredCount_eq_zero_of_not_mem ppl hna
      omega
    exact ⟨t, ht, by simp only; rw [if_pos hrc, hv]⟩

theorem keys_gser (steps : List EqMap) (ppl : Nat) :
    (get_station_equipment_requirements steps ppl).map Prod.fst =
      if steps.isEmpty then ([] : List String)
      else (allTypes steps).filter (fun t => 0 < requiredCount steps ppl t) := by
  unfold get_station_equipment_requirements
  by_cases h : steps.isEmpty
  · simp [h]
  · rw [if_neg h, if_neg h]
    induction allTypes steps with
    | nil => rfl
    | cons a l ih =>
      simp only [List.filterMap_cons, List.filter_cons]
      by_cases ha : 0 < requiredCount steps ppl a
      · have hd : decide (0 < requiredCount steps ppl a) = true := by simpa using ha
        simp only [if_pos ha, hd, if_true, List.map_cons, ih]
      · have hd : decide (0 < requiredCount steps ppl a) = false := by simpa using ha
        simp only [if_neg ha, hd, Bool.false_eq_true, if_false, ih]

theorem keys_gser_nodup (steps : List EqMap) (ppl : Nat) :
    ((get_station_equipment_requirements steps ppl).map Prod.fst).Nodup := by
  rw [keys_gser]
  by_cases h : steps.isEmpty
  · simp [h]
  · rw [if_neg h]
    exact (List.nodup_dedup _).filter _

theorem lookupCount_gser (steps : List EqMap) (ppl : Nat) (t : String) :
    lookupCount (get_station_equipment_requirements steps ppl) t =
      requiredCount steps ppl t := by
  by_cases h : steps = []
  · subst h
    simp [get_station_equipment_requirements, requiredCount, stepCounts, lookupCount, List.find?]
  · by_cases hrc : requiredCount steps ppl t = 0
    · rw [hrc]
      apply lookupCount_eq_zero_of_not_mem
      rw [keys_gser, if_neg (by simpa [List.isEmpty_iff] using h)]
      intro hmem
      have := (List.mem_filter.mp hmem).2
      simp only [decide_eq_true_eq] at this
      omega
    · have hm : (t, requiredCount steps ppl t) ∈ get_station_equipment_requirements steps ppl :=
        (mem_gser_iff h).mpr ⟨rfl, hrc⟩
      exact lookupCount_of_mem_nodup (keys_gser_nodup steps ppl) hm

/-- C1: for every non-empty list of step equipment maps,
`get_station_equipment_requirements` with `people_per_station = 1` contains,
for each equipment type, exactly the maximum of that type's per-step counts,
and with any `people_per_station > 1` exactly the sum of the per-step counts;
equipment types whose resulting count is 0 are omitted from the result. -/
theorem station_requirements_max_or_sum (steps : List EqMap) (ppl : Nat)
    (h : steps ≠ []) :
    (ppl = 1 → ∀ t v, ((t, v) ∈ get_station_equipment_requirements steps ppl ↔
        (v = (steps.map (fun m => lookupCount m t)).foldr max 0 ∧ v ≠ 0)))
  ∧ (1 < ppl → ∀ t v, ((t, v) ∈ get_station_equipment_requirements steps ppl ↔
        (v = (steps.map (fun m => lookupCount m t)).sum ∧ v ≠ 0))) := by
  constructor
  · intro hp t v
    rw [mem_gser_iff h]
    unfold requiredCount stepCounts
    rw [if_neg (by omega)]
  · intro hp t v
    rw [mem_gser_iff h]
    unfold requiredCount stepCounts
    rw [if_pos (by omega)]

/-- Witness for C1: the sequential requirement of two steps using equipment
type a is the maximum of the per-step counts. -/
theorem station_requirements_max_or_sum_witness :
    ("a", 3) ∈ get_station_equipment_requirements [[("a", 2)], [("a", 3), ("b", 1)]] 1 := by
  have h := (station_requirements_max_or_sum [[("a", 2)], [("a", 3), ("b", 1)]] 1
      (by decide)).1 rfl "a" 3
  exact h.mpr (by constructor <;> decide)

/-! ### Padding lemmas (for C2 and C6) -/

theorem padGo_eq (k : Nat) (s : List EqMap) (h : s ≠ []) :
    padStationSteps.padGo k s = s ++ List.replicate k (s.getLastD []) := by
  induction k generalizing s with
  | zero => simp [padStationSteps.padGo]
  | succ k ih =>
    have hne : s.isEmpty = false := by simpa [List.isEmpty_iff] using h
    simp only [padStationSteps.padGo, hne, Bool.false_eq_true, if_false]
    rw [ih (s ++ [s.getLastD []]) (by simp)]
    rw [List.getLastD_concat]
    rw [List.append_assoc, List.singleton_append]
    rfl

theorem padStationSteps_eq {steps : List EqMap} (n : Nat) (h : steps ≠ []) :
    padStationSteps steps n =
      steps ++ List.replicate (n - steps.length) (steps.getLastD []) := by
  unfold padStationSteps
  exact padGo_eq _ _ h

theorem padStationSteps_of_le {steps : List EqMap} {n : Nat} (h : n ≤ steps.length) :
    padStationSteps steps n = steps := by
  unfold padStationSteps
  rw [Nat.sub_eq_zero_of_le h]
  rfl

theorem getLastD_mem {steps : List EqMap} (h : steps ≠ []) :
    steps.getLastD [] ∈ steps := by
  rw [List.getLastD_eq_getLast? , List.getLast?_eq_getLast _ h]
  · exact List.getLast_mem h

theorem requiredCount_pad_sequential {steps : List EqMap} (n : Nat) (h : steps ≠ [])
    (t : String) :
    requiredCount (padStationSteps steps n) 1 t = requiredCount steps 1 t := by
  rw [padStationSteps_eq n h]
  unfold requiredCount stepCounts
  rw [if_neg (by omega), if_neg (by omega)]
  rw [List.map_append, foldr_max_append]
  have hrep : (List.map (fun m => lookupCount m t)
      (List.replicate (n - steps.length) (steps.getLastD []))).foldr max 0 ≤
      (List.map (fun m => lookupCount m t) steps).foldr max 0 := by
    apply foldr_max_le
    intro x hx
    rcases List.mem_map.mp hx with ⟨m, hm, he⟩
    have hmlast : m = steps.getLastD [] := List.eq_of_mem_replicate hm
    subst hmlast he
    exact le_foldr_max (List.mem_map_of_mem _ (getLastD_mem h))
  omega

/-! ### can_add_station_to_workout and the admission invariant (C2) -/

theorem lookupCount_addRequirements_gser (cum : EqMap) (steps : List EqMap) (ppl : Nat)
    (t : String) :
    lookupCount (addRequirements cum (get_station_equipment_requirements steps ppl)) t =
      lookupCount cum t + requiredCount steps ppl t := by
  rw [lookupCount_addRequirements,
    sumForKey_eq_lookupCount_of_nodup t (keys_gser_nodup steps ppl), lookupCount_gser]

theorem can_add_sound {steps : List EqMap} {cum inv : EqMap} {ppl : Nat}
    (hinv : inv ≠ []) (h : can_add_station_to_workout steps cum inv ppl = true) :
    ∀ t, lookupCount cum t + requiredCount steps ppl t ≤ lookupCount inv t := by
  intro t
  unfold can_add_station_to_workout at h
  rw [if_neg (by simpa [List.isEmpty_iff] using hinv)] at h
  rw [List.all_eq_true] at h
  by_cases hz : lookupCount (addRequirements cum
      (get_station_equipment_requirements steps ppl)) t = 0
  · rw [lookupCount_addRequirements_gser] at hz
    omega
  · rcases exists_entry_of_lookupCount_ne_zero hz with ⟨p, hp, hp1, hp2⟩
    have hle := h p hp
    simp only [decide_eq_true_eq] at hle
    rw [hp1] at hle
    rw [← lookupCount_addRequirements_gser cum steps ppl t, ← hp2]
    exact hle

theorem can_add_complete {steps : List EqMap} {cum inv : EqMap} {ppl : Nat}
    (hcum : (cum.map Prod.fst).Nodup)
    (h : ∀ t, lookupCount cum t + requiredCount steps ppl t ≤ lookupCount inv t) :
    can_add_station_to_workout steps cum inv ppl = true := by
  unfold can_add_station_to_workout
  by_cases hinv : inv.isEmpty
  · rw [if_pos hinv]
  · rw [if_neg hinv]
    rw [List.all_eq_true]
    intro p hp
    simp only [decide_eq_true_eq]
    have hnd : ((addRequirements cum
        (get_station_equipment_requirements steps ppl)).map Prod.fst).Nodup :=
      keys_addRequirements_nodup _ hcum
    have := lookupCount_of_mem_nodup hnd hp
    rw [← this, lookupCount_addRequirements_gser]
    exact h p.1

/-- C2: in the station-admission loop, stations are admitted only when
`can_add_station_to_workout` passes, and the cumulative equipment usage (the
elementwise sum of the admitted stations' requirements) never exceeds the
inventory; moreover, against a non-empty inventory, admission is permitted iff
for every equipment type `cumulative + station ≤ inventory`. -/
theorem inventory_respected (cands : List (List EqMap)) (stepsPer ppl : Nat)
    (inv : EqMap) (hinv : inv ≠ []) (hlen : ∀ c ∈ cands, stepsPer ≤ c.length) :
    (∀ t, lookupCount (admitStations cands stepsPer ppl inv) t ≤ lookupCount inv t)
  ∧ (∀ (steps : List EqMap) (cum : EqMap), (cum.map Prod.fst).Nodup →
      (can_add_station_to_workout steps cum inv ppl = true ↔
        ∀ t, lookupCount cum t + requiredCount steps ppl t ≤ lookupCount inv t)) := by
  constructor
  · have main : ∀ (cs : List (List EqMap)) (cum : EqMap),
        (∀ c ∈ cs, stepsPer ≤ c.length) →
        (cum.map Prod.fst).Nodup →
        (∀ t, lookupCount cum t ≤ lookupCount inv t) →
        ∀ t, lookupCount (cs.foldl
          (fun cum steps =>
            if can_add_station_to_workout steps cum inv ppl then
              addRequirements cum
                (get_station_equipment_requirements (padStationSteps steps stepsPer) ppl)
            else cum) cum) t ≤ lookupCount inv t := by
      intro cs
      induction cs with
      | nil => intro cum _ _ hb t; exact hb t
      | cons c rest ih =>
        intro cum hl hnd hb
        simp only [List.foldl_cons]
        by_cases hc : can_add_station_to_workout c cum inv ppl = true
        · rw [if_pos hc]
          have hpad : padStationSteps c stepsPer = c :=
            padStationSteps_of_le (hl c (by simp))
          apply ih _ (fun x hx => hl x (by simp [hx]))
            (keys_addRequirements_nodup _ hnd)
          intro t
          rw [lookupCount_addRequirements_gser, hpad]
          exact can_add_sound hinv hc t
        · rw [if_neg hc]
          exact ih _ (fun x hx => hl x (by simp [hx])) hnd hb
    intro t
    exact main cands [] hlen (by simp) (fun _ => by simp [lookupCount, List.find?]) t
  · intro steps cum hnd
    constructor
    · exact fun h => can_add_sound hinv h
    · exact fun h => can_add_complete hnd h

/-- Witness for C2: with one kettlebell in inventory, of two identical
one-step candidate stations only the first is admitted and usage stays within
inventory. -/
theorem inventory_respected_witness :
    lookupCount (admitStations [[[("kettlebells_16kg", 1)]], [[("kettlebells_16kg", 1)]]]
        1 1 [("kettlebells_16kg", 1)]) "kettlebells_16kg" ≤
      lookupCount [("kettlebells_16kg", 1)] "kettlebells_16kg" :=
  (inventory_respected [[[("kettlebells_16kg", 1)]], [[("kettlebells_16kg", 1)]]] 1 1
    [("kettlebells_16kg", 1)] (by decide) (by decide)).1 "kettlebells_16kg"

/-! ### C6: padding and cumulative usage -/

/-- C6 counterexample: padding a one-step station to two slots under the
simultaneous rule (people_per_station = 2) doubles the kettlebell requirement
that is added to cumulative usage, so the padded slot does add a new
contribution there. -/
theorem padding_adds_contribution_simultaneous :
    get_station_equipment_requirements (padStationSteps [[("kettlebells_16kg", 1)]] 2) 2
      = [("kettlebells_16kg", 2)]
  ∧ get_station_equipment_requirements [[("kettlebells_16kg", 1)]] 2
      = [("kettlebells_16kg", 1)]
  ∧ ([("kettlebells_16kg", 2)] : EqMap) ≠ [("kettlebells_16kg", 1)] :=
  ⟨by decide, by decide, by decide⟩

/-- C6 amended: the padding loop replicates the last filled step up to
`steps_per_station`, and under the sequential rule (people_per_station = 1)
the station requirement computed from the padded step list equals the
requirement of the unpadded list, so padding adds no new contribution to
cumulative usage in that case only. -/
theorem padding_replicates_last_and_sequential_neutral
    (steps : List EqMap) (n : Nat) (h : steps ≠ []) :
    padStationSteps steps n = steps ++ List.replicate (n - steps.length) (steps.getLastD [])
  ∧ ∀ t, lookupCount (get_station_equipment_requirements (padStationSteps steps n) 1) t =
      lookupCount (get_station_equipment_requirements steps 1) t := by
  refine ⟨padStationSteps_eq n h, ?_⟩
  intro t
  rw [lookupCount_gser, lookupCount_gser]
  exact requiredCount_pad_sequential n h t

/-- Witness for the amended C6 at a concrete padded station. -/
theorem padding_replicates_witness :
    lookupCount (get_station_equipment_requirements
        (padStationSteps [[("kettlebells_16kg", 1)]] 3) 1) "kettlebells_16kg" =
      lookupCount (get_station_equipment_requirements [[("kettlebells_16kg", 1)]] 1)
        "kettlebells_16kg" :=
  (padding_replicates_last_and_sequential_neutral [[("kettlebells_16kg", 1)]] 3
    (by decide)).2 "kettlebells_16kg"

/-! ### C3: the priority-score schedule -/

theorem mem_recently_used (h : HistoryData) (n : Nat) (id : Int) :
    id ∈ get_recently_used_exercise_ids h n ↔
      ∃ s ∈ lastSlice h.workout_sessions n, id ∈ s.used_exercise_ids := by
  simp [get_recently_used_exercise_ids, List.mem_flatten]

/-- C3: the priority score equals exactly 0.1·base for ids used in the last 2
recorded sessions, else 0.5·base for ids used in the last 5, else 1.5·base
when the all-time usage count is 0, else 1.2·base when it is 1, else base. -/
theorem priority_score_schedule (h : HistoryData) (id : Int) (base : ℚ) :
    calculate_exercise_priority_score h id base =
      if ∃ s ∈ lastSlice h.workout_sessions 2, id ∈ s.used_exercise_ids then base * (1 / 10)
      else if ∃ s ∈ lastSlice h.workout_sessions 5, id ∈ s.used_exercise_ids then base * (1 / 2)
      else if lookupCount h.exercise_usage_count (toString id) = 0 then base * (3 / 2)
      else if lookupCount h.exercise_usage_count (toString id) = 1 then base * (6 / 5)
      else base := by
  unfold calculate_exercise_priority_score get_exercise_usage_count
  simp only [mem_recently_used]

/-! ### C9: record_workout_session -/

/-- C9 counterexample: recording a session whose id list contains the same id
twice increments that id's all-time usage count by 2, not by 1. -/
theorem record_session_duplicate_increment :
    lookupCount (record_workout_session ⟨[], [], none, 0⟩ "t" [7, 7] "d").exercise_usage_count
      "7" = 2
  ∧ (2 : Nat) ≠ 0 + 1 :=
  ⟨by decide, by decide⟩

theorem lookupCount_foldl_dictAdd_one (used : List Int) (c0 : List (String × Nat))
    (s : String) :
    lookupCount (used.foldl (fun c id => dictAdd c (toString id) 1) c0) s =
      lookupCount c0 s + (used.map toString).count s := by
  induction used generalizing c0 with
  | nil => simp
  | cons a rest ih =>
    simp only [List.foldl_cons, List.map_cons]
    rw [ih, lookupCount_dictAdd, List.count_cons]
    by_cases hs : s = toString a
    · have hb : (toString a == s) = true := by simp [hs]
      rw [if_pos hs, hb]
      simp only [if_true]
      omega
    · have hb : (toString a == s) = false := by simp [beq_eq_false_iff_ne]; exact fun he => hs he.symm
      rw [if_neg hs, hb]
      simp

/-- C9 amended: every call to `record_workout_session` appends exactly one
session (keeping only the most recent 10, so at most 10 remain stored),
increases `total_workouts_generated` by exactly 1, and increments the
all-time usage count of each used id by its number of occurrences in the
list. -/
theorem record_session_effects (h : HistoryData) (title date : String) (used : List Int) :
    (record_workout_session h title used date).workout_sessions =
      (h.workout_sessions ++ [(⟨date, title, used, used.length⟩ : WorkoutSession)]).drop
        (h.workout_sessions.length + 1 - 10)
  ∧ (record_workout_session h title used date).total_workouts_generated =
      h.total_workouts_generated + 1
  ∧ (∀ s : String,
      lookupCount (record_workout_session h title used date).exercise_usage_count s =
        lookupCount h.exercise_usage_count s + (used.map toString).count s)
  ∧ (record_workout_session h title used date).workout_sessions.length ≤ 10 := by
  have hsess : (record_workout_session h title used date).workout_sessions =
      (h.workout_sessions ++ [(⟨date, title, used, used.length⟩ : WorkoutSession)]).drop
        (h.workout_sessions.length + 1 - 10) := by
    unfold record_workout_session
    simp only
    by_cases hlen : (h.workout_sessions ++
        [(⟨date, title, used, used.length⟩ : WorkoutSession)]).length > 10
    · rw [if_pos hlen]
      unfold lastSlice
      rw [if_neg (by omega)]
      rw [List.length_append]
      simp
    · rw [if_neg hlen]
      rw [List.length_append] at hlen
      simp only [List.length_cons, List.length_nil] at hlen
      rw [Nat.sub_eq_zero_of_le (by omega)]
      simp
  refine ⟨hsess, rfl, ?_, ?_⟩
  · intro s
    exact lookupCount_foldl_dictAdd_one used h.exercise_usage_count s
  · rw [hsess, List.length_drop, List.length_append]
    simp only [List.length_cons, List.length_nil]
    omega

/-! ### C4: equipment option selection and the slam-ball family -/

/-- C4 evidence: slam-ball keys are never grouped into a weight family,
because `split('_')[0]` of a `slam_balls_*` key is `"slam"`, which is not in
the family list; with both alternatives available, both are kept unchanged
instead of one being selected. -/
theorem slam_balls_never_grouped :
    select_best_equipment_option [("slam_balls_5kg", 1), ("slam_balls_6kg", 1)]
        [("slam_balls_5kg", 2), ("slam_balls_6kg", 2)]
      = [("slam_balls_5kg", 1), ("slam_balls_6kg", 1)]
  ∧ baseTypeOf "slam_balls_5kg" = "slam"
  ∧ "slam" ∉ weightFamilies :=
  ⟨by decide, by decide, by decide⟩

/-! ### C10: the capacity check of build_plan -/

/-- C10: when `people > 2 * stations` the capacity gate of `build_plan` dies
before any station is constructed; otherwise it proceeds with
`people_per_station = min 2 (people / stations)`. -/
theorem capacity_check (people stations : Nat) (h : 1 ≤ stations) :
    (stations * 2 < people →
      ∃ msg, build_plan_capacity_gate people stations = Except.error msg)
  ∧ (people ≤ stations * 2 →
      build_plan_capacity_gate people stations = Except.ok (min 2 (people / stations))) := by
  constructor
  · intro hp
    refine ⟨"Cannot accommodate people with these stations", ?_⟩
    simp only [build_plan_capacity_gate]
    rw [if_pos (by omega)]
  · intro hp
    simp only [build_plan_capacity_gate, compute_people_per_station]
    rw [if_neg (by omega), if_pos (by omega)]

/-- Witness for C10 at 5 people and 2 stations. -/
theorem capacity_check_witness :
    ∃ msg, build_plan_capacity_gate 5 2 = Except.error msg :=
  (capacity_check 5 2 (by decide)).1 (by decide)

/-! ### C5: the base-name to id map -/

theorem mapLookup_mapInsert (m : List (String × Int)) (b : String) (i : Int) (u : String) :
    mapLookup (mapInsert m b i) u = if u = b then some i else mapLookup m u := by
  unfold mapInsert
  by_cases hs : (m.find? (fun p => p.1 = b)).isSome
  · rw [if_pos hs]
    unfold mapLookup
    rw [List.find?_map]
    have hpred : ((fun p : String × Int => decide (p.1 = u)) ∘
        (fun p => if p.1 = b then (p.1, i) else p)) =
        (fun p : String × Int => decide (p.1 = u)) := by
      funext p
      by_cases hp : p.1 = b <;> simp [hp]
    rw [hpred]
    cases hf : m.find? (fun p : String × Int => decide (p.1 = u)) with
    | none =>
      by_cases hu : u = b
      · subst hu; rw [hf] at hs; simp at hs
      · simp [hu]
    | some p =>
      have hp1 : p.1 = u := by simpa using List.find?_some hf
      by_cases hu : u = b
      · simp [hp1, hu]
      · simp [hp1, hu]
  · rw [if_neg hs]
    unfold mapLookup
    rw [List.find?_append]
    cases hf : m.find? (fun p : String × Int => decide (p.1 = u)) with
    | none =>
      by_cases hu : u = b
      · subst hu
        simp [List.find?, hf]
      · have hbu : ¬(b = u) := fun he => hu he.symm
        simp [List.find?, hf, hbu, hu]
    | some p =>
      have hu : u ≠ b := by
        intro he
        subst he
        exact hs (hf ▸ rfl)
      simp [hf, hu]

theorem mapLookup_foldl_recordEntry (entries : List CatEntry) (st : NameIdMap) (b : String) :
    mapLookup (entries.foldl recordEntry st).map b =
      lastAssignedId entries b (mapLookup st.map b) := by
  induction entries generalizing st with
  | nil => rfl
  | cons e rest ih =>
    simp only [List.foldl_cons, lastAssignedId] at ih ⊢
    rw [ih]
    congr 1
    cases e with
    | obj n i skip =>
      by_cases hskip : skip
      · simp [recordEntry, effAssign, hskip]
      · simp only [recordEntry, effAssign, hskip, Bool.false_eq_true, if_false]
        rw [mapLookup_mapInsert]
        by_cases hb : get_base_exercise_name n = b
        · simp [hb]
        · have hb2 : ¬(b = get_base_exercise_name n) := fun he => hb he.symm
          simp [hb, hb2]
    | legacy n =>
      simp only [recordEntry, effAssign]
      rw [mapLookup_mapInsert]
      by_cases hb : get_base_exercise_name n = b
      · simp [hb]
      · have hb2 : ¬(b = get_base_exercise_name n) := fun he => hb he.symm
        simp [hb, hb2]

theorem errors_foldl_extends (entries : List CatEntry) (st : NameIdMap) :
    ∃ extra, (entries.foldl recordEntry st).errors = st.errors ++ extra := by
  induction entries generalizing st with
  | nil => exact ⟨[], by simp⟩
  | cons e rest ih =>
    simp only [List.foldl_cons]
    rcases ih (recordEntry st e) with ⟨extra, he⟩
    have hone : ∃ delta, (recordEntry st e).errors = st.errors ++ delta := by
      cases e with
      | obj n i skip =>
        by_cases hskip : skip
        · exact ⟨[], by simp [recordEntry, hskip]⟩
        · simp only [recordEntry, hskip, Bool.false_eq_true, if_false]
          cases hml : mapLookup st.map (get_base_exercise_name n) with
          | none => exact ⟨[], by simp⟩
          | some old =>
            by_cases hoi : old ≠ i
            · exact ⟨[(get_base_exercise_name n, old, i)], by simp [hoi]⟩
            · exact ⟨[], by simp [hoi]⟩
      | legacy n => exact ⟨[], by simp [recordEntry]⟩
    rcases hone with ⟨delta, hd⟩
    exact ⟨delta ++ extra, by rw [he, hd, List.append_assoc]⟩

/-- C5 counterexample: with two non-skipped entries sharing base name "Lunge"
but carrying ids 1 then 2, the resulting map stores 2 — the id of the last
encountered entry — not the id 1 of the first encountered entry as claimed. -/
theorem name_to_id_keeps_last_not_first :
    mapLookup (build_exercise_name_to_id_map
        [CatEntry.obj "Lunge (Left)" 1 false, CatEntry.obj "Lunge (Right)" 2 false]).map
      "Lunge" = some 2
  ∧ (some (2 : Int)) ≠ some 1 :=
  ⟨by decide, by decide⟩

/-- C5 amended: for each base name the map keeps the id of the last
encountered effective entry (a later conflicting entry overwrites the stored
id), and a later non-skipped entry whose base name is already bound to a
different id is reported as an error while the load continues to completion. -/
theorem name_to_id_last_wins (entries : List CatEntry) (b : String) :
    mapLookup (build_exercise_name_to_id_map entries).map b = lastAssignedId entries b none
  ∧ (∀ (pre post : List CatEntry) (n : String) (i v : Int),
      entries = pre ++ CatEntry.obj n i false :: post →
      mapLookup (build_exercise_name_to_id_map pre).map (get_base_exercise_name n) = some v →
      v ≠ i →
      (build_exercise_name_to_id_map entries).errors ≠ []) := by
  constructor
  · exact mapLookup_foldl_recordEntry entries ⟨[], []⟩ b
  · rintro pre post n i v rfl hml hvi
    unfold build_exercise_name_to_id_map
    rw [List.foldl_append, List.foldl_cons]
    rcases errors_foldl_extends post
        (recordEntry (List.foldl recordEntry ⟨[], []⟩ pre) (CatEntry.obj n i false)) with
      ⟨extra, he⟩
    rw [he]
    have hrec : (recordEntry (List.foldl recordEntry ⟨[], []⟩ pre)
        (CatEntry.obj n i false)).errors =
        (List.foldl recordEntry (⟨[], []⟩ : NameIdMap) pre).errors ++
          [(get_base_exercise_name n, v, i)] := by
      have hml2 : mapLookup (List.foldl recordEntry (⟨[], []⟩ : NameIdMap) pre).map
          (get_base_exercise_name n) = some v := hml
      simp [recordEntry, hml2, Ne.symm hvi, hvi]
    rw [hrec]
    simp

/-- Witness for the amended C5 at a concrete conflicting catalog. -/
theorem name_to_id_last_wins_witness :
    (build_exercise_name_to_id_map
      [CatEntry.obj "Lunge" 1 false, CatEntry.obj "Lunge" 2 false]).errors ≠ [] :=
  (name_to_id_last_wins
      [CatEntry.obj "Lunge" 1 false, CatEntry.obj "Lunge" 2 false] "Lunge").2
    [CatEntry.obj "Lunge" 1 false] [] "Lunge" 2 1 (by decide) (by decide) (by decide)

/-! ### Position and dedup lemmas for the edit engine -/

theorem mem_dedupKeepFirst {α : Type} [DecidableEq α] {l : List α} {x : α} :
    x ∈ dedupKeepFirst l ↔ x ∈ l := by
  induction l with
  | nil => simp [dedupKeepFirst]
  | cons a rest ih =>
    simp only [dedupKeepFirst, List.mem_cons]
    constructor
    · rintro (he | hm)
      · exact Or.inl he
      · exact Or.inr (ih.mp (List.mem_filter.mp hm).1)
    · rintro (he | hm)
      · exact Or.inl he
      · by_cases hx : x = a
        · exact Or.inl hx
        · exact Or.inr (List.mem_filter.mpr ⟨ih.mpr hm, by simpa using hx⟩)

theorem nodup_dedupKeepFirst {α : Type} [DecidableEq α] (l : List α) :
    (dedupKeepFirst l).Nodup := by
  induction l with
  | nil => simp [dedupKeepFirst]
  | cons a rest ih =>
    simp only [dedupKeepFirst]
    rw [List.nodup_cons]
    constructor
    · intro hmem
      have := (List.mem_filter.mp hmem).2
      simp at this
    · exact List.Nodup.filter _ ih

theorem getPos?_setPos_of_ne (sts : List (List Int)) (p q : Nat × Nat) (v : Int)
    (h : q ≠ p) : getPos? (setPos sts p v) q = getPos? sts q := by
  unfold getPos? setPos
  by_cases hs : q.1 = p.1
  · have hk : q.2 ≠ p.2 := fun hk => h (Prod.ext hs hk)
    by_cases hlen : p.1 < sts.length
    · have hgd : sts.getD p.1 [] = sts[p.1] := by
        rw [List.getD_eq_getElem?_getD, List.getElem?_eq_getElem hlen, Option.getD_some]
      have h1 : (sts.set p.1 ((sts.getD p.1 []).set p.2 v)).get? q.1 =
          some ((sts[p.1]).set p.2 v) := by
        rw [hs, List.get?_eq_getElem?, List.getElem?_set_self hlen, hgd]
      have h2 : sts.get? q.1 = some sts[p.1] := by
        rw [hs, List.get?_eq_getElem?, List.getElem?_eq_getElem hlen]
      rw [h1, h2, Option.some_bind, Option.some_bind,
        List.get?_eq_getElem?, List.get?_eq_getElem?,
        List.getElem?_set_ne (fun he => hk he.symm)]
    · rw [List.set_eq_of_length_le (by omega)]
  · rw [List.get?_eq_getElem?, List.get?_eq_getElem? sts,
      List.getElem?_set_ne (fun he => hs he.symm)]

theorem getPos?_setPos_self (sts : List (List Int)) (p : Nat × Nat) (v : Int)
    (h : (getPos? sts p).isSome) : getPos? (setPos sts p v) p = some v := by
  unfold getPos? at h ⊢
  unfold setPos
  cases hrow : sts.get? p.1 with
  | none => rw [hrow] at h; simp at h
  | some row =>
    rw [hrow, Option.some_bind] at h
    have hlen : p.1 < sts.length := by
      by_contra hc
      rw [List.get?_eq_getElem?, List.getElem?_eq_none (by omega)] at hrow
      cases hrow
    have hklen : p.2 < row.length := by
      by_contra hc
      rw [List.get?_eq_getElem?, List.getElem?_eq_none (by omega)] at h
      simp at h
    have hgd : sts.getD p.1 [] = row := by
      rw [List.getD_eq_getElem?_getD, ← List.get?_eq_getElem?, hrow, Option.getD_some]
    rw [List.get?_eq_getElem?, List.getElem?_set_self hlen, hgd, Option.some_bind]
    rw [List.get?_eq_getElem?, List.getElem?_set_self (by simpa using hklen)]

theorem getPos?_foldl_setPos_of_not_mem (ps : List (Nat × Nat))
    (sts : List (List Int)) (v : Int) {q : Nat × Nat} (h : q ∉ ps) :
    getPos? (ps.foldl (fun s p => setPos s p v) sts) q = getPos? sts q := by
  induction ps generalizing sts with
  | nil => rfl
  | cons p rest ih =>
    simp only [List.foldl_cons]
    rw [ih (setPos sts p v) (fun hm => h (by simp [hm]))]
    exact getPos?_setPos_of_ne sts p q v (fun he => h (by simp [he]))

theorem getPos?_foldl_setPos_pairs_of_not_mem (l : List ((Nat × Nat) × PoolEx))
    (sts : List (List Int)) {q : Nat × Nat} (hq : ∀ pe ∈ l, pe.1 ≠ q) :
    getPos? (l.foldl (fun s pe => setPos s pe.1 pe.2.id) sts) q = getPos? sts q := by
  induction l generalizing sts with
  | nil => rfl
  | cons pe rest ih =>
    simp only [List.foldl_cons]
    rw [ih (setPos sts pe.1 pe.2.id) (fun x hx => hq x (by simp [hx]))]
    exact getPos?_setPos_of_ne sts pe.1 q pe.2.id (fun he => hq pe (by simp) he.symm)

theorem mem_rowTriples {s k0 : Nat} {row : List Int} {x : Nat × Nat × Int}
    (h : x ∈ rowTriples s k0 row) :
    x.1 = s ∧ ∃ j, x.2.1 = k0 + j ∧ row.get? j = some x.2.2 := by
  induction row generalizing k0 with
  | nil => cases h
  | cons e es ih =>
    rcases List.mem_cons.mp h with he | hm
    · subst he
      exact ⟨rfl, 0, by simp, rfl⟩
    · rcases ih hm with ⟨h1, j, hj, hg⟩
      exact ⟨h1, j + 1, by omega, by simpa using hg⟩

theorem mem_positionTriples {sts : List (List Int)} {x : Nat × Nat × Int} :
    ∀ {s0 : Nat}, x ∈ positionTriples s0 sts →
      ∃ j row, x.1 = s0 + j ∧ sts.get? j = some row ∧ row.get? x.2.1 = some x.2.2 := by
  induction sts with
  | nil => intro s0 h; cases h
  | cons row rest ih =>
    intro s0 h
    rcases List.mem_append.mp h with hr | hp
    · rcases mem_rowTriples hr with ⟨h1, j, hj, hg⟩
      refine ⟨0, row, by omega, rfl, ?_⟩
      rw [hj]
      simpa using hg
    · rcases ih hp with ⟨j, r, h1, h2, h3⟩
      exact ⟨j + 1, r, by omega, by simpa using h2, h3⟩

theorem getPos?_of_mem_positionTriples {sts : List (List Int)} {x : Nat × Nat × Int}
    (h : x ∈ positionTriples 0 sts) : getPos? sts (x.1, x.2.1) = some x.2.2 := by
  rcases mem_positionTriples h with ⟨j, row, h1, h2, h3⟩
  unfold getPos?
  have hx1 : x.1 = j := by omega
  rw [hx1]
  simp only
  rw [h2, Option.some_bind]
  exact h3

theorem locationsById_spec {stationsIds : List (List Int)} {toReplace : List Int}
    {g : Int × List (Nat × Nat)} (hg : g ∈ locationsById stationsIds toReplace) :
    g.1 ∈ toReplace ∧ ∀ p ∈ g.2, getPos? stationsIds p = some g.1 := by
  unfold locationsById at hg
  rcases List.mem_map.mp hg with ⟨eid, heid, he⟩
  subst he
  constructor
  · have hmem : eid ∈ (((positionTriples 0 stationsIds).filter
        (fun p => p.2.2 ∈ toReplace)).map (fun p => p.2.2)) := mem_dedupKeepFirst.mp heid
    rcases List.mem_map.mp hmem with ⟨hit, hhit, hpe⟩
    have := (List.mem_filter.mp hhit).2
    simp only [decide_eq_true_eq] at this
    exact hpe ▸ this
  · intro p hp
    rcases List.mem_map.mp hp with ⟨hit, hhit, hpe⟩
    have hf1 := List.mem_filter.mp hhit
    have heq : hit.2.2 = eid := by
      have := hf1.2
      simpa using this
    have hf2 := List.mem_filter.mp hf1.1
    have hget := getPos?_of_mem_positionTriples hf2.1
    rw [← hpe, ← heq]
    exact hget

theorem processGroup_frame {pool : List PoolEx} {toReplace : List Int}
    {balanceOrder : List String} {picks : Nat → Nat} {gi : Nat}
    {st : EditState} {oldId : Int} {positions : List (Nat × Nat)} {st2 : EditState}
    (hok : processGroup pool toReplace balanceOrder picks gi st oldId positions =
      Except.ok st2)
    {q : Nat × Nat} (hq : q ∉ positions) :
    getPos? st2.stations q = getPos? st.stations q := by
  simp only [processGroup] at hok
  split_ifs at hok with h1 h2 h3 h4 h5 h6
  · injection hok with h
    subst h
    apply getPos?_foldl_setPos_pairs_of_not_mem
    intro pe hpe he
    have hmem : pe.1 ∈ positions := by
      have h2m := List.of_mem_zip (show (pe.1, pe.2) ∈ _ from hpe)
      exact h2m.1
    exact hq (he ▸ hmem)
  · injection hok with h
    subst h
    exact getPos?_foldl_setPos_of_not_mem positions st.stations _ hq
  · injection hok with h
    subst h
    rcases List.length_eq_one.mp h4.2 with ⟨a, ha⟩
    have hqa : q ≠ a := by
      intro he
      exact hq (by simp [ha, he])
    have hhead : positions.headD (0, 0) = a := by rw [ha]; rfl
    rw [hhead]
    exact getPos?_setPos_of_ne st.stations a q _ hqa
  · injection hok with h
    subst h
    exact getPos?_foldl_setPos_of_not_mem positions st.stations _ hq

theorem runGroups_frame {pool : List PoolEx} {toReplace : List Int}
    {balanceOrder : List String} {picks : Nat → Nat} :
    ∀ (gi : Nat) (groups : List (Int × List (Nat × Nat))) (st stFin : EditState),
    runGroups pool toReplace balanceOrder picks gi groups st = Except.ok stFin →
    ∀ q : Nat × Nat, (∀ g ∈ groups, q ∉ g.2) →
    getPos? stFin.stations q = getPos? st.stations q := by
  intro gi groups
  induction groups generalizing gi with
  | nil =>
    intro st stFin h q _
    simp only [runGroups] at h
    injection h with h
    subst h
    rfl
  | cons g rest ih =>
    intro st stFin h q hq
    simp only [runGroups] at h
    cases hpg : processGroup pool toReplace balanceOrder picks gi st g.1 g.2 with
    | error e => rw [hpg] at h; exact Except.noConfusion h
    | ok st2 =>
      rw [hpg] at h
      have h2 := ih (gi + 1) st2 stFin h q (fun x hx => hq x (by simp [hx]))
      rw [h2]
      exact processGroup_frame hpg (hq g (by simp))

/-- C8: an edit run mutates only the positions of the last plan's
`used_exercise_ids` that hold an id of the (unilaterally expanded) edit set:
every position holding an id outside the expanded edit set is unchanged by a
successful replacement pass, and persisting the result leaves the stored seed
unchanged. -/
theorem edit_preserves_non_edited (stationsIds : List (List Int)) (editIds : List Int)
    (pool : List PoolEx) (balanceOrder : List String) (initialUsedNames : List String)
    (picks : Nat → Nat) (final : List (List Int))
    (hok : run_edit_replacements stationsIds editIds pool balanceOrder initialUsedNames
      picks = Except.ok final) :
    (∀ s k e, getPos? stationsIds (s, k) = some e →
      e ∉ expand_edit_ids editIds stationsIds pool →
      getPos? final (s, k) = some e)
  ∧ (∀ lp : LastPlanData, (persist_edited_stations lp final).seed = lp.seed) := by
  constructor
  · intro s k e hget hnot
    have hnotEdit : e ∉ editIds := fun hmem =>
      hnot (by unfold expand_edit_ids; exact List.mem_append_left _ hmem)
    simp only [run_edit_replacements] at hok
    cases hrun : runGroups pool editIds balanceOrder picks 0
        (locationsById stationsIds editIds)
        ⟨stationsIds, keepIds stationsIds editIds, initialUsedNames⟩ with
    | error e2 =>
      rw [hrun] at hok
      exact Except.noConfusion hok
    | ok stFin =>
      rw [hrun] at hok
      simp only [Except.map] at hok
      injection hok with h
      subst h
      have hgroups : ∀ g ∈ locationsById stationsIds editIds, (s, k) ∉ g.2 := by
        intro g hg hpg
        rcases locationsById_spec hg with ⟨hrep, hpos⟩
        have hsome := hpos (s, k) hpg
        rw [hget] at hsome
        injection hsome with hsome
        exact hnotEdit (hsome ▸ hrep)
      have hframe := runGroups_frame 0 (locationsById stationsIds editIds) _ stFin hrun
        (s, k) hgroups
      rw [hframe]
      exact hget
  · intro lp
    rfl

/-- Witness for C8: editing id 1 in a one-station plan [1, 3] leaves the
position of the non-edited id 3 unchanged. -/
theorem edit_preserves_non_edited_witness :
    getPos? [[4, 3]] (0, 1) = some 3 := by
  have h := edit_preserves_non_edited [[1, 3]] [1]
      [⟨"upper", "Kb", "A", "", [], "", false, 1, ""⟩,
       ⟨"upper", "Kb", "C", "", [], "", false, 3, ""⟩,
       ⟨"upper", "Kb", "D", "", [], "", false, 4, ""⟩]
      ["upper"] [] (fun _ => 0) [[4, 3]] rfl
  exact h.1 0 1 3 (by decide) (by decide)

/-! ### Candidate and sampling lemmas for C7 -/

theorem pickFrom_mem {l : List PoolEx} (p : Nat) (h : l ≠ []) : pickFrom l p ∈ l := by
  unfold pickFrom
  have hl : 0 < l.length := List.length_pos.mpr h
  have hlt : p % l.length < l.length := Nat.mod_lt _ hl
  rw [List.getD_eq_getElem?_getD, List.getElem?_eq_getElem hlt, Option.getD_some]
  exact List.getElem_mem hlt

theorem samplePair_spec {n : Nat} (h : 2 ≤ n) (p1 p2 : Nat) :
    (samplePair n p1 p2).1 < n ∧ (samplePair n p1 p2).2 < n ∧
      (samplePair n p1 p2).1 ≠ (samplePair n p1 p2).2 := by
  unfold samplePair
  dsimp only
  have hi : p1 % n < n := Nat.mod_lt _ (by omega)
  have hj : p2 % (n - 1) < n - 1 := Nat.mod_lt _ (by omega)
  by_cases hc : p2 % (n - 1) < p1 % n
  · rw [if_pos hc]
    exact ⟨hi, by omega, by omega⟩
  · rw [if_neg hc]
    exact ⟨hi, by omega, by omega⟩

theorem lastWithId_id {pool : List PoolEx} {i : Int} {ex : PoolEx}
    (h : lastWithId pool i = some ex) : ex.id = i ∧ ex ∈ pool := by
  unfold lastWithId at h
  have hp := List.find?_some h
  have hm := List.mem_of_find?_eq_some h
  rw [List.mem_reverse] at hm
  exact ⟨by simpa using hp, (List.mem_filter.mp hm).1⟩

theorem pool_by_id_map_id (pool : List PoolEx) :
    (pool_by_id pool).map (fun ex => ex.id) =
      (poolByIdKeys pool).filter (fun i => (lastWithId pool i).isSome) := by
  unfold pool_by_id
  induction poolByIdKeys pool with
  | nil => rfl
  | cons i ks ih =>
    simp only [List.filterMap_cons, List.filter_cons]
    cases hl : lastWithId pool i with
    | none => simp [hl, ih]
    | some ex =>
      have hid := (lastWithId_id hl).1
      simp [hl, ih, hid]

theorem pool_by_id_ids_nodup (pool : List PoolEx) :
    ((pool_by_id pool).map (fun ex => ex.id)).Nodup := by
  rw [pool_by_id_map_id]
  exact (nodup_dedupKeepFirst _).filter _

theorem candOK_iff {alreadyUsed toReplace : List Int} {usedNames : List String}
    {a : String} {ex : PoolEx} :
    candOK alreadyUsed toReplace usedNames (some a) ex = true ↔
      (ex.id ∉ alreadyUsed ∧ ex.id ∉ toReplace ∧ ex.name ∉ usedNames ∧ ex.area = a) := by
  unfold candOK
  simp [Bool.and_eq_true, decide_eq_true_eq, and_assoc]

/-- C7: for an edited unilateral exercise occupying exactly two positions,
the engine first selects a single unilateral replacement from the intended
area whose id is not already used, not itself being replaced, and whose name
is unused, filling both positions with the same id; if no such unilateral
candidate exists it selects two distinct bilateral replacements under the
same constraints, one per position; and it fails with the fatal
no-replacement error if and only if, in that second case, fewer than two such
bilateral candidates exist. -/
theorem unilateral_edit_replacement
    (pool : List PoolEx) (toReplace : List Int) (balanceOrder : List String)
    (picks : Nat → Nat) (gi : Nat) (st : EditState) (oldId : Int)
    (p1 p2 : Nat × Nat) (oldEx : PoolEx)
    (hfind : get_exercise_by_id oldId pool = some oldEx)
    (huni : oldEx.unilateral = true)
    (hne : p1 ≠ p2)
    (hr1 : (getPos? st.stations p1).isSome)
    (hr2 : (getPos? st.stations p2).isSome) :
    (processGroup pool toReplace balanceOrder picks gi st oldId [p1, p2] =
        Except.error () ↔
      (unilateralCandidates pool st.alreadyUsed toReplace st.allUsedNames
          (some (intendedAreaOf balanceOrder p1.1)) = []
        ∧ (bilateralCandidates pool st.alreadyUsed toReplace st.allUsedNames
            (some (intendedAreaOf balanceOrder p1.1))).length < 2))
  ∧ (unilateralCandidates pool st.alreadyUsed toReplace st.allUsedNames
        (some (intendedAreaOf balanceOrder p1.1)) ≠ [] →
      ∃ ex st2, ex ∈ pool_by_id pool ∧ ex.unilateral = true ∧
        ex.id ∉ st.alreadyUsed ∧ ex.id ∉ toReplace ∧ ex.name ∉ st.allUsedNames ∧
        ex.area = intendedAreaOf balanceOrder p1.1 ∧
        processGroup pool toReplace balanceOrder picks gi st oldId [p1, p2] =
          Except.ok st2 ∧
        getPos? st2.stations p1 = some ex.id ∧ getPos? st2.stations p2 = some ex.id)
  ∧ (unilateralCandidates pool st.alreadyUsed toReplace st.allUsedNames
        (some (intendedAreaOf balanceOrder p1.1)) = [] →
      2 ≤ (bilateralCandidates pool st.alreadyUsed toReplace st.allUsedNames
          (some (intendedAreaOf balanceOrder p1.1))).length →
      ∃ e1 e2 st2, e1 ∈ pool_by_id pool ∧ e2 ∈ pool_by_id pool ∧
        e1.unilateral = false ∧ e2.unilateral = false ∧
        e1.id ∉ st.alreadyUsed ∧ e1.id ∉ toReplace ∧ e1.name ∉ st.allUsedNames ∧
        e1.area = intendedAreaOf balanceOrder p1.1 ∧
        e2.id ∉ st.alreadyUsed ∧ e2.id ∉ toReplace ∧ e2.name ∉ st.allUsedNames ∧
        e2.area = intendedAreaOf balanceOrder p1.1 ∧
        e1.id ≠ e2.id ∧
        processGroup pool toReplace balanceOrder picks gi st oldId [p1, p2] =
          Except.ok st2 ∧
        getPos? st2.stations p1 = some e1.id ∧ getPos? st2.stations p2 = some e2.id) := by
  have hcond : ((match get_exercise_by_id oldId pool with
      | none => false
      | some ex => ex.unilateral) = true ∧ ([p1, p2] : List (Nat × Nat)).length = 2) := by
    rw [hfind]
    exact ⟨huni, rfl⟩
  refine ⟨?_, ?_, ?_⟩
  · constructor
    · intro herr
      simp only [processGroup, List.headD] at herr
      rw [if_pos hcond] at herr
      by_cases hu : (unilateralCandidates pool st.alreadyUsed toReplace st.allUsedNames
          (some (intendedAreaOf balanceOrder p1.1))).isEmpty
      · rw [if_pos hu] at herr
        by_cases hb : (bilateralCandidates pool st.alreadyUsed toReplace st.allUsedNames
            (some (intendedAreaOf balanceOrder p1.1))).length < 2
        · exact ⟨List.isEmpty_iff.mp hu, hb⟩
        · rw [if_neg hb] at herr
          exact Except.noConfusion herr
      · rw [if_neg hu] at herr
        exact Except.noConfusion herr
    · rintro ⟨hu, hb⟩
      simp only [processGroup, List.headD]
      rw [if_pos hcond, if_pos (by simp [List.isEmpty_iff, hu]), if_pos hb]
  · intro hu
    set uc := unilateralCandidates pool st.alreadyUsed toReplace st.allUsedNames
      (some (intendedAreaOf balanceOrder p1.1)) with hucdef
    have hmem : pickFrom uc (picks (2 * gi)) ∈ uc := pickFrom_mem _ hu
    have hfil := List.mem_filter.mp (hucdef ▸ hmem)
    obtain ⟨hpb, hpred⟩ := hfil
    rw [Bool.and_eq_true] at hpred
    obtain ⟨hok1, hok2, hok3, hok4⟩ := candOK_iff.mp hpred.1
    have hproc : processGroup pool toReplace balanceOrder picks gi st oldId [p1, p2] =
        Except.ok
          { stations := setPos (setPos st.stations p1 (pickFrom uc (picks (2 * gi))).id)
              p2 (pickFrom uc (picks (2 * gi))).id
            alreadyUsed := st.alreadyUsed ++ [(pickFrom uc (picks (2 * gi))).id]
            allUsedNames := st.allUsedNames ++ [(pickFrom uc (picks (2 * gi))).name] } := by
      simp only [processGroup, List.headD]
      rw [if_pos hcond, if_neg (by simp [List.isEmpty_iff, hu])]
      rfl
    refine ⟨pickFrom uc (picks (2 * gi)), _, hpb, hpred.2, hok1, hok2, hok3, hok4,
      hproc, ?_, ?_⟩
    · rw [getPos?_setPos_of_ne _ _ _ _ hne]
      exact getPos?_setPos_self _ _ _ hr1
    · apply getPos?_setPos_self
      rw [getPos?_setPos_of_ne _ _ _ _ (Ne.symm hne)]
      exact hr2
  · intro hu hb
    set bc := bilateralCandidates pool st.alreadyUsed toReplace st.allUsedNames
      (some (intendedAreaOf balanceOrder p1.1)) with hbcdef
    have hspec := samplePair_spec hb (picks (2 * gi)) (picks (2 * gi + 1))
    set ij := samplePair bc.length (picks (2 * gi)) (picks (2 * gi + 1)) with hijdef
    have hlt1 : ij.1 < bc.length := hspec.1
    have hlt2 : ij.2 < bc.length := hspec.2.1
    have he1 : bc.getD ij.1 defaultPoolEx = bc[ij.1] := by
      rw [List.getD_eq_getElem?_getD, List.getElem?_eq_getElem hlt1, Option.getD_some]
    have he2 : bc.getD ij.2 defaultPoolEx = bc[ij.2] := by
      rw [List.getD_eq_getElem?_getD, List.getElem?_eq_getElem hlt2, Option.getD_some]
    have hm1 : bc[ij.1] ∈ bc := List.getElem_mem hlt1
    have hm2 : bc[ij.2] ∈ bc := List.getElem_mem hlt2
    have hf1 := List.mem_filter.mp hm1
    have hf2 := List.mem_filter.mp hm2
    obtain ⟨hpb1, hpred1⟩ := hf1
    obtain ⟨hpb2, hpred2⟩ := hf2
    rw [Bool.and_eq_true] at hpred1 hpred2
    obtain ⟨ha1, ha2, ha3, ha4⟩ := candOK_iff.mp hpred1.1
    obtain ⟨hb1, hb2, hb3, hb4⟩ := candOK_iff.mp hpred2.1
    have huni1 : bc[ij.1].unilateral = false := by
      have := hpred1.2
      simp only [Bool.not_eq_true'] at this
      exact this
    have huni2 : bc[ij.2].unilateral = false := by
      have := hpred2.2
      simp only [Bool.not_eq_true'] at this
      exact this
    have hnd : (bc.map (fun ex => ex.id)).Nodup := by
      have hsub : bc.Sublist (pool_by_id pool) := by
        rw [hbcdef]
        exact List.filter_sublist _
      exact (hsub.map _).nodup (pool_by_id_ids_nodup pool)
    have hids : bc[ij.1].id ≠ bc[ij.2].id := by
      intro he
      have hlen1 : ij.1 < (bc.map (fun ex => ex.id)).length := by simpa using hlt1
      have hlen2 : ij.2 < (bc.map (fun ex => ex.id)).length := by simpa using hlt2
      have hgeq : (bc.map (fun ex => ex.id)).get ⟨ij.1, hlen1⟩ =
          (bc.map (fun ex => ex.id)).get ⟨ij.2, hlen2⟩ := by
        simp only [List.get_eq_getElem, List.getElem_map]
        exact he
      have hfin := (hnd.get_inj_iff).mp hgeq
      have : ij.1 = ij.2 := by simpa using hfin
      exact hspec.2.2 this
    have hproc : processGroup pool toReplace balanceOrder picks gi st oldId [p1, p2] =
        Except.ok
          { stations := setPos (setPos st.stations p1 (bc.getD ij.1 defaultPoolEx).id)
              p2 (bc.getD ij.2 defaultPoolEx).id
            alreadyUsed := st.alreadyUsed ++
              [(bc.getD ij.1 defaultPoolEx).id, (bc.getD ij.2 defaultPoolEx).id]
            allUsedNames := st.allUsedNames ++
              [(bc.getD ij.1 defaultPoolEx).name, (bc.getD ij.2 defaultPoolEx).name] } := by
      simp only [processGroup, List.headD]
      rw [if_pos hcond, if_pos (by simp [List.isEmpty_iff, hu]), if_neg (by rw [← hbcdef]; omega)]
      rfl
    rw [he1, he2] at hproc
    refine ⟨bc[ij.1], bc[ij.2], _, hpb1, hpb2, huni1, huni2,
      ha1, ha2, ha3, ha4, hb1, hb2, hb3, hb4, hids, hproc, ?_, ?_⟩
    · rw [getPos?_setPos_of_ne _ _ _ _ hne]
      exact getPos?_setPos_self _ _ _ hr1
    · apply getPos?_setPos_self
      rw [getPos?_setPos_of_ne _ _ _ _ (Ne.symm hne)]
      exact hr2

/-- Witness for C7: with a unilateral candidate available, the replacement of
the unilateral pair does not fail. -/
theorem unilateral_edit_replacement_witness :
    processGroup
      [⟨"upper", "Kb", "A", "", [], "", true, 1, ""⟩,
       ⟨"upper", "Kb", "B", "", [], "", true, 2, ""⟩,
       ⟨"upper", "Kb", "C", "", [], "", false, 3, ""⟩]
      [1] ["upper"] (fun _ => 0) 0 ⟨[[1, 1, 3]], [3], []⟩ 1 [(0, 0), (0, 1)] ≠
      Except.error () := by
  have h := unilateral_edit_replacement
      [⟨"upper", "Kb", "A", "", [], "", true, 1, ""⟩,
       ⟨"upper", "Kb", "B", "", [], "", true, 2, ""⟩,
       ⟨"upper", "Kb", "C", "", [], "", false, 3, ""⟩]
      [1] ["upper"] (fun _ => 0) 0 ⟨[[1, 1, 3]], [3], []⟩ 1 (0, 0) (0, 1)
      ⟨"upper", "Kb", "A", "", [], "", true, 1, ""⟩
      rfl rfl (by decide) (by decide) (by decide)
  intro herr
  have hcontra := h.1.mp herr
  have hne2 : unilateralCandidates
      [⟨"upper", "Kb", "A", "", [], "", true, 1, ""⟩,
       ⟨"upper", "Kb", "B", "", [], "", true, 2, ""⟩,
       ⟨"upper", "Kb", "C", "", [], "", false, 3, ""⟩]
      ([3] : List Int) [1] ([] : List String)
      (some (intendedAreaOf ["upper"] 0)) ≠ [] := by decide
  exact hne2 hcontra.1

end Workout
